import Mathlib

/-!
Verification of the ai-consultation-mcp daemon against its specification.

The definitions below are shallow embeddings of the TypeScript sources:
strings are `List Char` where character-level operations matter, JS numbers
are `Nat`/`Int` (the only fractional constant, `0.6 * chunkSize`, is modelled
in exact arithmetic as `3 * chunkSize / 5`, which agrees with the IEEE-754
value for the default `chunkSize = 1000`), and the unbounded `while` loop of
`chunkText` is modelled with an explicit fuel parameter so that divergence is
observable as `none`.
-/

namespace AiConsult

/-! ## JS string helpers (whitespace handling as in `String.prototype`) -/

/-- ASCII whitespace recognised by the JS `\s` class and `trim`. -/
def isJsWs (c : Char) : Bool :=
  c = ' ' || c = '\t' || c = '\n' || c = '\r' || c = '\x0b' || c = '\x0c'

/-- Collapse every maximal whitespace run to a single space
(`input.replace(/\s+/g, ' ')`). The flag records whether the previous
character was whitespace. -/
def collapseWsAux : Bool → List Char → List Char
  | _, [] => []
  | prevWs, c :: rest =>
    if isJsWs c then
      if prevWs then collapseWsAux true rest
      else ' ' :: collapseWsAux true rest
    else c :: collapseWsAux false rest

def collapseWs (l : List Char) : List Char := collapseWsAux false l

/-- `String.prototype.trim`. -/
def trimWs (l : List Char) : List Char :=
  ((l.dropWhile isJsWs).reverse.dropWhile isJsWs).reverse

/-- `input.replace(/\s+/g, ' ').trim()` from `chunkText`. -/
def normalizeWs (l : List Char) : List Char := trimWs (collapseWs l)

theorem dropWhile_len_le (p : Char → Bool) (l : List Char) :
    (l.dropWhile p).length ≤ l.length := by
  induction l with
  | nil => simp [List.dropWhile]
  | cons c rest ih =>
    by_cases h : p c
    · simp [List.dropWhile, h]; omega
    · simp [List.dropWhile, h]

theorem trimWs_length_le (l : List Char) : (trimWs l).length ≤ l.length := by
  unfold trimWs
  calc ((l.dropWhile isJsWs).reverse.dropWhile isJsWs).reverse.length
      = ((l.dropWhile isJsWs).reverse.dropWhile isJsWs).length := List.length_reverse _
    _ ≤ (l.dropWhile isJsWs).reverse.length := dropWhile_len_le _ _
    _ = (l.dropWhile isJsWs).length := List.length_reverse _
    _ ≤ l.length := dropWhile_len_le _ _

/-! ## Chunking (`src/rag/chunking.ts`) -/

/-- Accumulator pass behind `text.lastIndexOf(' ', upTo)`: the index of the
last space at position `≤ upTo`, or `none`. -/
def lastSpaceLeGo (upTo : Nat) : List Char → Nat → Option Nat → Option Nat
  | [], _, acc => acc
  | c :: rest, i, acc =>
    lastSpaceLeGo upTo rest (i + 1) (if c = ' ' ∧ i ≤ upTo then some i else acc)

/-- `text.lastIndexOf(' ', upTo)`, with `none` for the JS result `-1`. -/
def lastSpaceLe (text : List Char) (upTo : Nat) : Option Nat :=
  lastSpaceLeGo upTo text 0 none

/-- The last space at position `≤ upTo` that is also `> t` (used by the
spec-side reading of the chunk-boundary rule). -/
def lastSpaceGtGo (upTo t : Nat) : List Char → Nat → Option Nat → Option Nat
  | [], _, acc => acc
  | c :: rest, i, acc =>
    lastSpaceGtGo upTo t rest (i + 1) (if c = ' ' ∧ i ≤ upTo ∧ t < i then some i else acc)

def lastSpaceGt (text : List Char) (upTo t : Nat) : Option Nat :=
  lastSpaceGtGo upTo t text 0 none

/-- `Math.floor(chunkSize * 0.6)` in exact arithmetic. -/
def chunkThreshold (cs : Nat) : Nat := 3 * cs / 5

/-- The end index the source computes for the window starting at `start`:
`end = min(start + chunkSize, len)`, moved back to `lastIndexOf(' ', end)`
when that index is strictly greater than `start + ⌊0.6·chunkSize⌋` and the
window does not already reach the end of the text. -/
def chunkEnd (text : List Char) (cs start : Nat) : Nat :=
  let end0 := min (start + cs) text.length
  if end0 < text.length then
    match lastSpaceLe text end0 with
    | some p => if start + chunkThreshold cs < p then p else end0
    | none => end0
  else end0

/-- `text.slice(start, end).trim()` for the window ending at
`chunkEnd text cs start`. -/
def chunkSlice (text : List Char) (cs start : Nat) : List Char :=
  trimWs ((text.drop start).take (chunkEnd text cs start - start))

/-- `if (chunk) chunks.push(chunk)`. -/
def pushChunk (acc : List (List Char)) (chunk : List Char) : List (List Char) :=
  if chunk.isEmpty then acc else acc ++ [chunk]

/-- The `while` loop of `chunkText`, with fuel; `none` means the loop did
not finish within `fuel` iterations. -/
def chunkLoop (text : List Char) (cs ov : Nat) : Nat → Nat → List (List Char) → Option (List (List Char))
  | 0, _, _ => none
  | fuel + 1, start, acc =>
    if start < text.length then
      if text.length ≤ chunkEnd text cs start then
        some (pushChunk acc (chunkSlice text cs start))
      else
        chunkLoop text cs ov fuel (chunkEnd text cs start - ov)
          (pushChunk acc (chunkSlice text cs start))
    else some acc

/-- `chunkText` from `src/rag/chunking.ts`. The fuel `text.length + 1` is
enough whenever the loop terminates at all (each iteration moves `start`
strictly forward in the terminating regime), so `none` marks divergence. -/
def chunkText (input : List Char) (cs ov : Nat) : Option (List (List Char)) :=
  let text := normalizeWs input
  if text.isEmpty then some []
  else if text.length ≤ cs then some [text]
  else chunkLoop text cs ov (text.length + 1) 0 []

/-- The loop of `chunkText` reaches its `break` from the initial state. -/
def ChunkRuns (input : List Char) (cs ov : Nat) : Prop :=
  ∃ fuel, (chunkLoop (normalizeWs input) cs ov fuel 0 []).isSome

theorem lastSpaceLeGo_bound (u : Nat) :
    ∀ (l : List Char) (i : Nat) (acc : Option Nat),
      (∀ q, acc = some q → q ≤ u) →
      ∀ p, lastSpaceLeGo u l i acc = some p → p ≤ u := by
  intro l
  induction l with
  | nil => intro i acc hacc p hp; exact hacc p hp
  | cons c rest ih =>
    intro i acc hacc p hp
    simp only [lastSpaceLeGo] at hp
    refine ih (i + 1) _ ?_ p hp
    intro q hq
    by_cases h : c = ' ' ∧ i ≤ u
    · rw [if_pos h] at hq
      cases hq
      exact h.2
    · rw [if_neg h] at hq
      exact hacc q hq

theorem lastSpaceLe_le {text : List Char} {u p : Nat}
    (h : lastSpaceLe text u = some p) : p ≤ u :=
  lastSpaceLeGo_bound u text 0 none (by intro q hq; cases hq) p h

theorem lastSpaceGtGo_rel (u t : Nat) :
    ∀ (l : List Char) (i : Nat) (accL : Option Nat),
      (∀ p, accL = some p → p < i) →
      lastSpaceGtGo u t l i (accL.bind fun p => if t < p then some p else none) =
        (lastSpaceLeGo u l i accL).bind fun p => if t < p then some p else none := by
  intro l
  induction l with
  | nil => intro i accL _; rfl
  | cons c rest ih =>
    intro i accL hacc
    simp only [lastSpaceGtGo, lastSpaceLeGo]
    have hstep :
        (if c = ' ' ∧ i ≤ u ∧ t < i then some i
          else accL.bind fun p => if t < p then some p else none) =
        ((if c = ' ' ∧ i ≤ u then some i else accL).bind
          fun p => if t < p then some p else none) := by
      by_cases h1 : c = ' ' ∧ i ≤ u
      · rw [if_pos h1]
        by_cases h2 : t < i
        · rw [if_pos ⟨h1.1, h1.2, h2⟩]
          simp [h2]
        · rw [if_neg (by intro h; exact h2 h.2.2)]
          simp only [Option.some_bind]
          rw [if_neg h2]
          cases haccL : accL with
          | none => rfl
          | some p =>
            have hpi := hacc p haccL
            simp only [Option.some_bind]
            rw [if_neg (by omega)]
      · rw [if_neg (by intro h; exact h1 ⟨h.1, h.2.1⟩), if_neg h1]
    rw [hstep]
    refine ih (i + 1) _ ?_
    intro p hp
    by_cases h1 : c = ' ' ∧ i ≤ u
    · rw [if_pos h1] at hp
      cases hp
      omega
    · rw [if_neg h1] at hp
      have := hacc p hp
      omega

theorem lastSpaceGt_eq (text : List Char) (u t : Nat) :
    lastSpaceGt text u t =
      (lastSpaceLe text u).bind fun p => if t < p then some p else none := by
  have := lastSpaceGtGo_rel u t text 0 none (by intro p hp; cases hp)
  simpa [lastSpaceGt, lastSpaceLe] using this

theorem chunkEnd_le (text : List Char) (cs start : Nat) :
    chunkEnd text cs start ≤ min (start + cs) text.length := by
  simp only [chunkEnd]
  split
  · split
    · next p hp =>
      split
      · exact lastSpaceLe_le hp
      · exact Nat.le_refl _
    · exact Nat.le_refl _
  · exact Nat.le_refl _

theorem chunkEnd_progress (text : List Char) (cs start ov : Nat)
    (h1 : 1 ≤ cs) (h2 : ov ≤ chunkThreshold cs)
    (h4 : chunkEnd text cs start < text.length) :
    start + ov < chunkEnd text cs start := by
  have hthr : chunkThreshold cs < cs := by
    simp only [chunkThreshold]
    omega
  simp only [chunkEnd] at h4 ⊢
  split at h4
  · next hlt =>
    have hend0 : min (start + cs) text.length = start + cs := by omega
    rw [if_pos (by omega : min (start + cs) text.length < text.length)]
    split
    · next p hp =>
      split
      · next hgt => omega
      · omega
    · omega
  · next hge => omega

theorem chunkLoop_isSome (text : List Char) (cs ov : Nat)
    (h1 : 1 ≤ cs) (h2 : ov ≤ chunkThreshold cs) :
    ∀ (fuel start : Nat) (acc : List (List Char)),
      text.length - start < fuel → (chunkLoop text cs ov fuel start acc).isSome := by
  intro fuel
  induction fuel with
  | zero => intro start acc h; omega
  | succ n ih =>
    intro start acc h
    simp only [chunkLoop]
    split
    · split
      · simp
      · next hend =>
        have hp := chunkEnd_progress text cs start ov h1 h2 (by omega)
        exact ih _ _ (by omega)
    · simp

/-! ### Spec-side chunking (amended boundary rule, default options)

`chunkTextSpec` follows the specification text for the default options
`chunkSize = 1000`, `overlap = 150`, with the amended boundary rule: the
window end is moved back to the last space at a position strictly greater
than `start + ⌊0.6·chunkSize⌋` (the source tests `lastSpace > start + 600`),
whenever the window does not reach the end of the text and such a space
exists. It is a structurally honest rendering of the spec: fuel-free
recursion, boundary picked among the spaces above the threshold. -/

def chunkEndSpec (text : List Char) (start : Nat) : Nat :=
  let end0 := min (start + 1000) text.length
  if end0 < text.length then
    match lastSpaceGt text end0 (start + 600) with
    | some q => q
    | none => end0
  else end0

theorem chunkEndSpec_eq (text : List Char) (start : Nat) :
    chunkEndSpec text start = chunkEnd text 1000 start := by
  have hthr : chunkThreshold 1000 = 600 := by decide
  simp only [chunkEndSpec, chunkEnd, lastSpaceGt_eq, hthr]
  by_cases hlt : min (start + 1000) text.length < text.length
  · rw [if_pos hlt, if_pos hlt]
    cases lastSpaceLe text (min (start + 1000) text.length) with
    | none => rfl
    | some p =>
      simp only [Option.some_bind]
      by_cases h : start + 600 < p
      · simp [h]
      · simp [h]
  · rw [if_neg hlt, if_neg hlt]

theorem chunkEndSpec_progress (text : List Char) (start : Nat)
    (h4 : chunkEndSpec text start < text.length) :
    start + 150 < chunkEndSpec text start := by
  rw [chunkEndSpec_eq] at h4 ⊢
  exact chunkEnd_progress text 1000 start 150 (by omega) (by decide) h4

def chunkSpecGo (text : List Char) (start : Nat) : List (List Char) :=
  if h : start < text.length then
    if h2 : text.length ≤ chunkEndSpec text start then
      pushChunk [] (trimWs ((text.drop start).take (chunkEndSpec text start - start)))
    else
      pushChunk [] (trimWs ((text.drop start).take (chunkEndSpec text start - start))) ++
        chunkSpecGo text (chunkEndSpec text start - 150)
  else []
termination_by text.length - start
decreasing_by
  have hp := chunkEndSpec_progress text start (by omega)
  omega

def chunkTextSpec (input : List Char) : List (List Char) :=
  let text := normalizeWs input
  if text.isEmpty then []
  else if text.length ≤ 1000 then [text]
  else chunkSpecGo text 0

theorem pushChunk_append (acc : List (List Char)) (c : List Char)
    (rest : List (List Char)) :
    pushChunk acc c ++ rest = acc ++ (pushChunk [] c ++ rest) := by
  simp only [pushChunk]
  split <;> simp

theorem chunkLoop_eq_spec (text : List Char) :
    ∀ (fuel start : Nat) (acc : List (List Char)),
      text.length - start < fuel →
      chunkLoop text 1000 150 fuel start acc = some (acc ++ chunkSpecGo text start) := by
  intro fuel
  induction fuel with
  | zero => intro start acc h; omega
  | succ n ih =>
    intro start acc h
    rw [chunkSpecGo]
    simp only [chunkLoop]
    by_cases hs : start < text.length
    · rw [if_pos hs, dif_pos hs]
      have hce : chunkEnd text 1000 start = chunkEndSpec text start :=
        (chunkEndSpec_eq text start).symm
      by_cases hend : text.length ≤ chunkEnd text 1000 start
      · rw [if_pos hend, dif_pos (hce ▸ hend)]
        simp only [chunkSlice, hce, pushChunk]
        split <;> simp
      · rw [if_neg hend, dif_neg (hce ▸ hend)]
        have hp : start + 150 < chunkEndSpec text start :=
          chunkEndSpec_progress text start (by omega)
        rw [hce]
        rw [ih (chunkEndSpec text start - 150) _ (by omega)]
        simp only [chunkSlice, hce]
        rw [pushChunk_append]
    · rw [if_neg hs, dif_neg hs]
      simp

theorem chunkSpecGo_safety (text : List Char) :
    ∀ (n start : Nat), text.length - start ≤ n →
      ∀ c ∈ chunkSpecGo text start, c ≠ [] ∧ c.length ≤ 1000 := by
  intro n
  induction n with
  | zero =>
    intro start hn c hc
    rw [chunkSpecGo, dif_neg (by omega)] at hc
    cases hc
  | succ n ih =>
    intro start hn c hc
    rw [chunkSpecGo] at hc
    by_cases hs : start < text.length
    · rw [dif_pos hs] at hc
      have hlen : (trimWs ((text.drop start).take (chunkEndSpec text start - start))).length ≤ 1000 := by
        have h1 := trimWs_length_le ((text.drop start).take (chunkEndSpec text start - start))
        have h2 : ((text.drop start).take (chunkEndSpec text start - start)).length ≤
            chunkEndSpec text start - start := by
          simpa using List.length_take_le _ _
        have h3 : chunkEndSpec text start ≤ start + 1000 := by
          rw [chunkEndSpec_eq]
          have := chunkEnd_le text 1000 start
          omega
        omega
      by_cases hend : text.length ≤ chunkEndSpec text start
      · rw [dif_pos hend] at hc
        simp only [pushChunk, List.nil_append] at hc
        split at hc
        · cases hc
        · next hne =>
          simp only [List.mem_singleton] at hc
          subst hc
          exact ⟨by simpa [List.isEmpty_iff] using hne, hlen⟩
      · rw [dif_neg hend] at hc
        rw [List.mem_append] at hc
        cases hc with
        | inl hc =>
          simp only [pushChunk, List.nil_append] at hc
          split at hc
          · cases hc
          · next hne =>
            simp only [List.mem_singleton] at hc
            subst hc
            exact ⟨by simpa [List.isEmpty_iff] using hne, hlen⟩
        | inr hc =>
          have hp : start + 150 < chunkEndSpec text start :=
            chunkEndSpec_progress text start (by omega)
          exact ih (chunkEndSpec text start - 150) (by omega) c hc
    · rw [dif_neg hs] at hc
      cases hc

/-- C7 (amended): with the default options, `chunkText` first normalises
whitespace and trims; an empty result gives `[]`, a result of length
`≤ chunkSize` gives the single chunk; otherwise the emitted chunks are the
stripped windows whose end is moved back to the last space at a position
strictly greater than `start + ⌊0.6·chunkSize⌋` (when the window does not
reach the end of the text and such a space exists), `start` advancing to
`end − overlap` after each chunk — this is `chunkTextSpec` — and every chunk
is non-empty of length at most `chunkSize`. -/
theorem chunkText_matches_spec (input : List Char) :
    chunkText input 1000 150 = some (chunkTextSpec input) ∧
    ∀ c ∈ chunkTextSpec input, c ≠ [] ∧ c.length ≤ 1000 := by
  constructor
  · simp only [chunkText, chunkTextSpec]
    by_cases h1 : (normalizeWs input).isEmpty
    · rw [if_pos h1, if_pos h1]
    · rw [if_neg h1, if_neg h1]
      by_cases h2 : (normalizeWs input).length ≤ 1000
      · rw [if_pos h2, if_pos h2]
      · rw [if_neg h2, if_neg h2]
        exact chunkLoop_eq_spec (normalizeWs input) _ 0 [] (by omega)
  · simp only [chunkTextSpec]
    by_cases h1 : (normalizeWs input).isEmpty
    · rw [if_pos h1]
      intro c hc
      cases hc
    · rw [if_neg h1]
      by_cases h2 : (normalizeWs input).length ≤ 1000
      · rw [if_pos h2]
        intro c hc
        simp only [List.mem_singleton] at hc
        subst hc
        exact ⟨by simpa [List.isEmpty_iff] using h1, h2⟩
      · rw [if_neg h2]
        exact chunkSpecGo_safety (normalizeWs input) (normalizeWs input).length 0 (by omega)

/-- Witness for C7 at a concrete input. -/
theorem chunkText_matches_spec_witness :
    chunkText ['h', 'i'] 1000 150 = some (chunkTextSpec ['h', 'i']) ∧
    (['h', 'i'] ∈ chunkTextSpec ['h', 'i'] ∧
      (['h', 'i'] : List Char) ≠ [] ∧ (['h', 'i'] : List Char).length ≤ 1000) :=
  ⟨(chunkText_matches_spec ['h', 'i']).1,
    by
      have hm : ['h', 'i'] ∈ chunkTextSpec ['h', 'i'] := by
        have : chunkTextSpec ['h', 'i'] = [['h', 'i']] := by rfl
        rw [this]
        exact List.mem_singleton.mpr rfl
      exact ⟨hm, (chunkText_matches_spec ['h', 'i']).2 _ hm⟩⟩

/-- Text with its only space at position exactly `start + ⌊0.6·chunkSize⌋`
for the first window: 600 letters, one space, 1000 letters. -/
def input7 : List Char := List.replicate 600 'a' ++ ' ' :: List.replicate 1000 'b'

set_option maxRecDepth 40000 in
/-- Counterexample to C7 as stated. The normalised text has length 1601, so
the first window is `[0, 1000)` and its last space sits exactly at position
`600 = 0 + ⌊0.6·1000⌋`. The claim's boundary rule ("moved back to the last
space at a position ≥ start + ⌊0.6·chunkSize⌋") dictates a first chunk ending
at the space, hence of length at most 600; the source tests
`lastSpace > start + 600` strictly and keeps `end = 1000`, so the first chunk
it emits has length 1000. -/
theorem chunkText_boundary_space_not_taken :
    (normalizeWs input7).length = 1601 ∧
    lastSpaceLe (normalizeWs input7) 1000 = some 600 ∧
    ((chunkText input7 1000 150).bind (fun l => l.head?)).map List.length = some 1000 := by
  refine ⟨?_, ?_, ?_⟩
  · decide
  · decide
  · decide

/-! ### Termination of the chunking loop (C10) -/

theorem chunkLoop_ab_none : ∀ (fuel : Nat) (acc : List (List Char)),
    chunkLoop ['a', 'b'] 0 0 fuel 0 acc = none := by
  intro fuel
  induction fuel with
  | zero => intro acc; rfl
  | succ n ih =>
    intro acc
    have hstep : chunkLoop ['a', 'b'] 0 0 (n + 1) 0 acc = chunkLoop ['a', 'b'] 0 0 n 0 acc := by
      rfl
    rw [hstep]
    exact ih acc

theorem chunkLoop_aa_none : ∀ (fuel : Nat) (acc : List (List Char)),
    chunkLoop ['a', 'a'] 1 1 fuel 0 acc = none := by
  intro fuel
  induction fuel with
  | zero => intro acc; rfl
  | succ n ih =>
    intro acc
    have hstep : chunkLoop ['a', 'a'] 1 1 (n + 1) 0 acc =
        chunkLoop ['a', 'a'] 1 1 n 0 (acc ++ [['a']]) := by
      rfl
    rw [hstep]
    exact ih (acc ++ [['a']])

/-- Counterexample to C10 as stated: with `chunkSize = 0` and `overlap = 0`
the hypothesis `overlap ≤ ⌊0.6·chunkSize⌋` of the claim holds, yet on the
two-character text the loop never terminates (every fuel runs out: `start`
stays at 0 because `end = min(start + 0, len) = start`). -/
theorem chunk_zero_chunkSize_diverges :
    (0 : Nat) ≤ chunkThreshold 0 ∧
    chunkText ['a', 'b'] 0 0 = none ∧
    ¬ ChunkRuns ['a', 'b'] 0 0 := by
  refine ⟨Nat.le_refl 0, ?_, ?_⟩
  · have : chunkText ['a', 'b'] 0 0 = chunkLoop ['a', 'b'] 0 0 3 0 [] := by rfl
    rw [this]
    exact chunkLoop_ab_none 3 []
  · rintro ⟨fuel, hf⟩
    have hnorm : normalizeWs ['a', 'b'] = ['a', 'b'] := by decide
    rw [hnorm, chunkLoop_ab_none fuel []] at hf
    cases hf

/-- C10 (amended): the loop of `chunkText` terminates on every input
whenever `1 ≤ chunkSize` and `overlap ≤ ⌊0.6·chunkSize⌋` (each iteration
strictly increases `start`); and for the space-free text `"aa"` with
`chunkSize = 1 = overlap` — an instance of `overlap ≥ chunkSize` — the loop
never terminates, whatever the fuel. -/
theorem chunkText_termination_amended :
    (∀ (input : List Char) (cs ov : Nat),
        1 ≤ cs → ov ≤ chunkThreshold cs → (chunkText input cs ov).isSome) ∧
    (∀ (fuel : Nat) (acc : List (List Char)),
        chunkLoop ['a', 'a'] 1 1 fuel 0 acc = none) := by
  constructor
  · intro input cs ov h1 h2
    simp only [chunkText]
    by_cases hempty : (normalizeWs input).isEmpty
    · rw [if_pos hempty]; rfl
    · rw [if_neg hempty]
      by_cases hshort : (normalizeWs input).length ≤ cs
      · rw [if_pos hshort]; rfl
      · rw [if_neg hshort]
        exact chunkLoop_isSome (normalizeWs input) cs ov h1 h2 _ 0 [] (by omega)
  · exact chunkLoop_aa_none

/-- Witness for C10 at a concrete input. -/
theorem chunkText_termination_amended_witness :
    1 ≤ 1 ∧ (0 : Nat) ≤ chunkThreshold 1 ∧ (chunkText ['h'] 1 0).isSome :=
  ⟨Nat.le_refl 1, Nat.zero_le _,
    chunkText_termination_amended.1 ['h'] 1 0 (Nat.le_refl 1) (Nat.zero_le _)⟩

/-! ## Retry loop (`withRetry`, `src/utils/retry.ts`; used with its default
condition by `callProvider` in `src/daemon/handlers/provider.ts`) -/

/-- `needle` occurs as a contiguous run in `hay`
(`String.prototype.includes`). -/
def hasInfix (needle : List Char) : List Char → Bool
  | [] => needle.isEmpty
  | c :: rest => needle.isPrefixOf (c :: rest) || hasInfix needle rest

/-- The fields of a JS error value the retry condition inspects.
`status`/`responseStatus` model `error.status` / `error.response.status`. -/
structure JsError where
  status : Option Nat
  responseStatus : Option Nat
  message : Option String
  code : Option String
deriving DecidableEq, Repr

/-- `error?.status || error?.response?.status` (0 is falsy in JS). -/
def effStatus (e : JsError) : Option Nat :=
  match e.status with
  | some s => if s = 0 then e.responseStatus else some s
  | none => e.responseStatus

/-- The default `retryCondition`:
`status === 429 || (status >= 500 && status < 600) ||
 error.message?.includes('timeout') || error.code === 'ETIMEDOUT'`. -/
def retryCondition (e : JsError) : Bool :=
  (match effStatus e with
    | some s => s == 429 || (decide (500 ≤ s) && decide (s < 600))
    | none => false) ||
  (match e.message with
    | some m => hasInfix ("timeout").data m.data
    | none => false) ||
  (e.code == some "ETIMEDOUT")

/-- The `for` loop of `withRetry` from attempt number `attempt` on. The
outcome of the `attempt`-th call of `operation` is `f attempt`; the returned
list records the backoff delays (`baseDelay * 2^attempt`) actually waited. -/
def withRetryFrom {α : Type} (f : Nat → Except JsError α)
    (maxRetries baseDelay attempt : Nat) : Except JsError α × List Nat :=
  match f attempt with
  | .ok v => (.ok v, [])
  | .error e =>
    if h : attempt < maxRetries ∧ retryCondition e = true then
      let r := withRetryFrom f maxRetries baseDelay (attempt + 1)
      (r.1, (baseDelay * 2 ^ attempt) :: r.2)
    else (.error e, [])
termination_by maxRetries - attempt
decreasing_by
  omega

/-- `withRetry` with its defaults (`maxRetries = 2`, `baseDelay = 1000`),
exactly as `callProvider` invokes it. -/
def withRetry {α : Type} (f : Nat → Except JsError α) : Except JsError α × List Nat :=
  withRetryFrom f 2 1000 0

/-- The retry set as the amended claim states it: HTTP status 429 or any
status in `[500, 600)`, a message containing "timeout", or code
`ETIMEDOUT`. -/
def RetryableSpec (e : JsError) : Prop :=
  effStatus e = some 429 ∨
  (∃ s, effStatus e = some s ∧ 500 ≤ s ∧ s < 600) ∨
  (∃ m, e.message = some m ∧ hasInfix ("timeout").data m.data = true) ∨
  e.code = some "ETIMEDOUT"

theorem retryCondition_iff (e : JsError) :
    retryCondition e = true ↔ RetryableSpec e := by
  unfold retryCondition RetryableSpec
  cases hstat : effStatus e with
  | none =>
    cases hmsg : e.message with
    | none => simp
    | some m => simp
  | some s =>
    cases hmsg : e.message with
    | none => simp; tauto
    | some m => simp; tauto

theorem withRetryFrom_ok {α : Type} (f : Nat → Except JsError α)
    (mr bd att : Nat) (v : α) (h : f att = .ok v) :
    withRetryFrom f mr bd att = (.ok v, []) := by
  rw [withRetryFrom, h]

theorem withRetryFrom_error {α : Type} (f : Nat → Except JsError α)
    (mr bd att : Nat) (e : JsError) (h : f att = .error e) :
    withRetryFrom f mr bd att =
      if att < mr ∧ retryCondition e = true then
        ((withRetryFrom f mr bd (att + 1)).1,
          bd * 2 ^ att :: (withRetryFrom f mr bd (att + 1)).2)
      else (.error e, []) := by
  rw [withRetryFrom, h]
  show (if _h : att < mr ∧ retryCondition e = true then
        ((withRetryFrom f mr bd (att + 1)).1,
          bd * 2 ^ att :: (withRetryFrom f mr bd (att + 1)).2)
      else (.error e, [])) = _
  by_cases hc : att < mr ∧ retryCondition e = true
  · rw [dif_pos hc, if_pos hc]
  · rw [dif_neg hc, if_neg hc]

theorem withRetryFrom_persistent {α : Type} (f : Nat → Except JsError α)
    (e : JsError) (he : ∀ n, f n = .error e) (hr : retryCondition e = true) :
    ∀ (k attempt : Nat), k = 2 - attempt →
      withRetryFrom f 2 1000 attempt =
        (.error e, (List.range k).map fun i => 1000 * 2 ^ (attempt + i)) := by
  intro k
  induction k with
  | zero =>
    intro attempt hk
    rw [withRetryFrom_error f 2 1000 attempt e (he attempt),
      if_neg (fun h => absurd h.1 (by omega))]
    rfl
  | succ n ih =>
    intro attempt hk
    rw [withRetryFrom_error f 2 1000 attempt e (he attempt),
      if_pos ⟨by omega, hr⟩, ih (attempt + 1) (by omega)]
    refine congrArg (Prod.mk _) ?_
    rw [List.range_succ_eq_map, List.map_cons, List.map_map]
    refine congrArg₂ List.cons (by rw [Nat.add_zero]) ?_
    refine List.map_congr_left ?_
    intro i _
    simp only [Function.comp]
    have harith : attempt + 1 + i = attempt + (i + 1) := by omega
    rw [harith]

/-- C5 (amended): a provider call error is retried (up to the 2-retry
budget, with delay `1000·2^attempt` ms before the retried attempt) exactly
when its effective status is 429 or lies in `[500, 600)`, or its message
contains "timeout", or its code is `ETIMEDOUT`; every error outside this set
surfaces immediately with no retry. Under a persistently failing operation
the error surfaces after exactly two backoff delays 1000 and 2000 when
retryable, and after none otherwise. -/
theorem withRetry_retry_set_characterization {α : Type}
    (e : JsError) (f : Nat → Except JsError α) :
    (f 0 = .error e → ¬ RetryableSpec e → withRetry f = (.error e, [])) ∧
    ((∀ n, f n = .error e) → RetryableSpec e →
      withRetry f = (.error e, [1000, 2000])) := by
  constructor
  · intro h0 hnr
    have hc : ¬ retryCondition e = true := fun hc => hnr ((retryCondition_iff e).mp hc)
    rw [withRetry, withRetryFrom_error f 2 1000 0 e h0, if_neg (fun h => hc h.2)]
  · intro hall hr
    have hc : retryCondition e = true := (retryCondition_iff e).mpr hr
    have := withRetryFrom_persistent f e hall hc 2 0 rfl
    rw [withRetry, this]
    rfl

/-- Witness for C5 at a concrete input. -/
theorem withRetry_retry_set_characterization_witness :
    ((fun _ => .error ⟨some 400, none, none, none⟩ : Nat → Except JsError Unit) 0 =
        .error ⟨some 400, none, none, none⟩) ∧
    ¬ RetryableSpec ⟨some 400, none, none, none⟩ ∧
    withRetry (fun _ => .error ⟨some 400, none, none, none⟩ : Nat → Except JsError Unit) =
      (.error ⟨some 400, none, none, none⟩, []) := by
  refine ⟨rfl, ?_, ?_⟩
  · intro h
    rcases (retryCondition_iff _).mpr h with hc
    cases hc
  · exact (withRetry_retry_set_characterization ⟨some 400, none, none, none⟩ _).1 rfl
      (by intro h; cases (retryCondition_iff _).mpr h)

/-- The non-listed status 505 and an operation that succeeds on its second
attempt. -/
def err505 : JsError := ⟨some 505, none, none, none⟩

def f505 : Nat → Except JsError String :=
  fun n => if n = 0 then .error err505 else .ok "done"

/-- Counterexample to C5 as stated: status 505 is outside the claim's set
{429, 500, 501, 502, 503, 504, 599}, so the claim demands that the error
surface immediately without retrying; the source retries any status in
`[500, 600)`, so the call is retried once (after the 1000 ms backoff) and
succeeds. -/
theorem withRetry_retries_status_505 :
    (505 ∉ ([429, 500, 501, 502, 503, 504, 599] : List Nat)) ∧
    f505 0 = .error err505 ∧
    withRetry f505 = (.ok "done", [1000]) := by
  refine ⟨by decide, rfl, ?_⟩
  rw [withRetry, withRetryFrom_error f505 2 1000 0 err505 rfl,
    if_pos ⟨by omega, by decide⟩,
    withRetryFrom_ok f505 2 1000 1 "done" rfl]
  rfl

/-! ## PATCH /api/config validation (`src/api/shared/config.ts`,
used by `app.patch('/api/config')` in `src/daemon/server.ts`) -/

/-- JSON primitive values as they reach the zod schema. `other` stands for
arrays and objects. JS numbers are modelled as integers (every numeric field
of the schema is `.int()`-checked). -/
inductive JsonVal where
  | str (s : String)
  | num (n : Int)
  | jbool (b : Bool)
  | jnull
  | other
deriving DecidableEq, Repr

/-- The model ids of `MODEL_TYPES` (`src/types/models.ts`). -/
def MODEL_TYPES : List String :=
  ["deepseek-chat", "deepseek-reasoner", "gpt-5.2", "gpt-5.2-pro"]

/-- Modelled from the spec: `CONVERSATION_LIMITS.MAX_ALLOWED_MESSAGES` is
imported from a `config/defaults.ts` revision that is not part of the
sources at hand; the spec fixes the accepted range as `maxMessages ∈
[1..50]`. -/
def MAX_ALLOWED_MESSAGES : Nat := 50

/-- JS `Number(x)` as used by `z.coerce.number()`, on the modelled values
(digit-string literals only; `Number(null) = 0`, booleans coerce to 0/1,
objects and arrays are NaN here, i.e. `none`). -/
def jsToNumber : JsonVal → Option Int
  | .num n => some n
  | .jbool b => some (if b then 1 else 0)
  | .jnull => some 0
  | .str s =>
    if s.data.isEmpty then some 0
    else if s.data.all (fun c => c.isDigit) then
      some (s.data.foldl (fun acc c => acc * 10 + (c.toNat - 48)) (0 : Int))
    else none
  | .other => none

/-- JS `Boolean(x)` as used by `z.coerce.boolean()` (never fails). -/
def jsToBoolean : JsonVal → Bool
  | .num n => n ≠ 0
  | .jbool b => b
  | .jnull => false
  | .str s => ¬ s.data.isEmpty
  | .other => true

/-- The parsed JSON body of a PATCH /api/config request: at most one value
per known field plus the list of unknown keys (`.strict()` rejects any). -/
structure PatchBody where
  defaultModel : Option JsonVal
  maxMessages : Option JsonVal
  requestTimeout : Option JsonVal
  autoOpenWebUI : Option JsonVal
  extras : List (String × JsonVal)
deriving DecidableEq, Repr

structure ConfigPatch where
  defaultModel : Option String
  maxMessages : Option Int
  requestTimeout : Option Int
  autoOpenWebUI : Option Bool
deriving DecidableEq, Repr

/-- `z.enum(MODEL_TYPES)` on the `defaultModel` field. -/
def parseDefaultModel : JsonVal → Option String
  | .str s => if s ∈ MODEL_TYPES then some s else none
  | _ => none

/-- `z.coerce.number().int().min(lo).max(hi)` (all numbers are modelled as
integers, so the `.int()` test is implicit). -/
def parseBoundedInt (lo hi : Int) (v : JsonVal) : Option Int :=
  match jsToNumber v with
  | some n => if lo ≤ n ∧ n ≤ hi then some n else none
  | none => none

/-- The per-field zod validation of `configPatchSchema`: every present
field's value must parse. -/
def zodFieldOk (b : PatchBody) : Bool :=
  (match b.defaultModel with
    | none => true
    | some v => (parseDefaultModel v).isSome) &&
  (match b.maxMessages with
    | none => true
    | some v => (parseBoundedInt 1 (MAX_ALLOWED_MESSAGES : Int) v).isSome) &&
  (match b.requestTimeout with
    | none => true
    | some v => (parseBoundedInt 30000 600000 v).isSome)

/-- The patch record `safeParse` yields on success. -/
def extractPatch (b : PatchBody) : ConfigPatch :=
  ⟨b.defaultModel.bind parseDefaultModel,
    b.maxMessages.bind (parseBoundedInt 1 (MAX_ALLOWED_MESSAGES : Int)),
    b.requestTimeout.bind (parseBoundedInt 30000 600000),
    b.autoOpenWebUI.map jsToBoolean⟩

/-- `parseConfigPatch` from `src/api/shared/config.ts`: a `.strict()` zod
object with exactly the four optional keys (no `providers`), followed by the
explicit empty-patch rejection (`Object.keys(parsed).length === 0`). -/
def parseConfigPatch (b : PatchBody) : Except String ConfigPatch :=
  if ¬ b.extras.isEmpty then .error "Unrecognized key(s) in object"
  else if ¬ zodFieldOk b then .error "Invalid configuration payload"
  else if b.defaultModel.isNone ∧ b.maxMessages.isNone ∧
      b.requestTimeout.isNone ∧ b.autoOpenWebUI.isNone then
    .error "No updates provided"
  else .ok (extractPatch b)

/-- Spec-side validity of each present field, written after the spec text:
defaultModel from the model set, maxMessages an integer in [1..50],
requestTimeout an integer in [30000..600000]; autoOpenWebUI always coerces
to a boolean, so it imposes no condition. -/
def FieldOk (b : PatchBody) : Prop :=
  (∀ v, b.defaultModel = some v → ∃ s, v = .str s ∧ s ∈ MODEL_TYPES) ∧
  (∀ v, b.maxMessages = some v → ∃ n, jsToNumber v = some n ∧ 1 ≤ n ∧ n ≤ 50) ∧
  (∀ v, b.requestTimeout = some v →
    ∃ n, jsToNumber v = some n ∧ 30000 ≤ n ∧ n ≤ 600000)

theorem parseDefaultModel_isSome (v : JsonVal) :
    (parseDefaultModel v).isSome = true ↔ ∃ s, v = .str s ∧ s ∈ MODEL_TYPES := by
  cases v <;> simp only [parseDefaultModel, Option.isSome_none, Option.isSome_some]
  case str s =>
    by_cases h : s ∈ MODEL_TYPES
    · simp [h]
    · simp [h]
  all_goals simp

theorem parseBoundedInt_isSome (lo hi : Int) (v : JsonVal) :
    (parseBoundedInt lo hi v).isSome = true ↔
      ∃ n, jsToNumber v = some n ∧ lo ≤ n ∧ n ≤ hi := by
  unfold parseBoundedInt
  cases hn : jsToNumber v with
  | none => simp
  | some n =>
    by_cases h : lo ≤ n ∧ n ≤ hi
    · simp [h]
    · simp only [if_neg h, Option.isSome_none, Option.some.injEq]
      constructor
      · intro hfalse; cases hfalse
      · rintro ⟨m, hm, h1, h2⟩
        cases hm
        exact absurd ⟨h1, h2⟩ h

theorem zodField_iff {α : Type} (o : Option JsonVal) (p : JsonVal → Option α)
    (Q : JsonVal → Prop) (hq : ∀ v, (p v).isSome = true ↔ Q v) :
    ((match o with | none => true | some v => (p v).isSome) = true ↔
      (∀ v, o = some v → Q v)) := by
  cases o with
  | none => simp
  | some v => simpa using hq v

theorem zodFieldOk_iff (b : PatchBody) : zodFieldOk b = true ↔ FieldOk b := by
  unfold zodFieldOk FieldOk
  rw [Bool.and_eq_true, Bool.and_eq_true,
    zodField_iff b.defaultModel parseDefaultModel _ parseDefaultModel_isSome,
    zodField_iff b.maxMessages (parseBoundedInt 1 (MAX_ALLOWED_MESSAGES : Int)) _
      (parseBoundedInt_isSome 1 (MAX_ALLOWED_MESSAGES : Int)),
    zodField_iff b.requestTimeout (parseBoundedInt 30000 600000) _
      (parseBoundedInt_isSome 30000 600000)]
  constructor
  · rintro ⟨⟨h1, h2⟩, h3⟩
    exact ⟨h1, h2, h3⟩
  · rintro ⟨h1, h2, h3⟩
    exact ⟨⟨h1, h2⟩, h3⟩

/-- C6 (amended): PATCH /api/config succeeds exactly when the body has no
key outside {defaultModel, maxMessages, requestTimeout, autoOpenWebUI}
(in particular `providers` is NOT accepted), at least one of those keys is
present, and every present value validates: defaultModel from the model
catalogue, maxMessages an integer in [1..50], requestTimeout an integer in
[30000..600000]; autoOpenWebUI always coerces to a boolean. -/
theorem parseConfigPatch_success_iff (b : PatchBody) :
    (parseConfigPatch b).isOk = true ↔
      (b.extras = [] ∧
        (b.defaultModel.isSome ∨ b.maxMessages.isSome ∨
          b.requestTimeout.isSome ∨ b.autoOpenWebUI.isSome) ∧
        FieldOk b) := by
  have hoptn : ∀ {α : Type} (o : Option α), ¬ o.isSome = true → o.isNone = true := by
    intro α o h
    cases o <;> simp_all
  have hopts : ∀ {α : Type} (o : Option α), o.isSome = true → o.isNone = true → False := by
    intro α o h1 h2
    cases o <;> simp_all
  constructor
  · intro hok
    unfold parseConfigPatch at hok
    by_cases hex : b.extras.isEmpty
    swap
    · rw [if_pos (by simpa using hex)] at hok
      simp [Except.isOk, Except.toBool] at hok
    rw [if_neg (by simpa using hex)] at hok
    by_cases hz : zodFieldOk b = true
    swap
    · rw [if_pos (by simpa using hz)] at hok
      simp [Except.isOk, Except.toBool] at hok
    rw [if_neg (by simpa using hz)] at hok
    by_cases hempty : b.defaultModel.isNone = true ∧ b.maxMessages.isNone = true ∧
        b.requestTimeout.isNone = true ∧ b.autoOpenWebUI.isNone = true
    · rw [if_pos hempty] at hok
      simp [Except.isOk, Except.toBool] at hok
    rw [if_neg hempty] at hok
    refine ⟨by simpa [List.isEmpty_iff] using hex, ?_, (zodFieldOk_iff b).mp hz⟩
    by_contra hall
    push_neg at hall
    exact hempty ⟨hoptn _ hall.1, hoptn _ hall.2.1, hoptn _ hall.2.2.1, hoptn _ hall.2.2.2⟩
  · rintro ⟨hexl, hpresent, hfo⟩
    have hnempty : ¬ (b.defaultModel.isNone = true ∧ b.maxMessages.isNone = true ∧
        b.requestTimeout.isNone = true ∧ b.autoOpenWebUI.isNone = true) := by
      intro hall
      rcases hpresent with h | h | h | h
      · exact hopts _ h hall.1
      · exact hopts _ h hall.2.1
      · exact hopts _ h hall.2.2.1
      · exact hopts _ h hall.2.2.2
    unfold parseConfigPatch
    rw [if_neg (by simp [hexl]), if_neg (by simp [(zodFieldOk_iff b).mpr hfo]),
      if_neg hnempty]
    rfl

/-- Witness for C6: the concrete body `{maxMessages: 7}` is accepted. -/
theorem parseConfigPatch_success_iff_witness :
    (parseConfigPatch ⟨none, some (.num 7), none, none, []⟩).isOk = true :=
  (parseConfigPatch_success_iff ⟨none, some (.num 7), none, none, []⟩).mpr
    ⟨rfl, Or.inr (Or.inl rfl),
      (by intro v hv; cases hv),
      (by intro v hv; cases hv; exact ⟨7, rfl, by omega, by omega⟩),
      (by intro v hv; cases hv)⟩

/-- The body `{providers: {...}}`, i.e. only the key the claim says is
accepted. -/
def providersBody : PatchBody := ⟨none, none, none, none, [("providers", JsonVal.other)]⟩

/-- Counterexample to C6 as stated: a body whose only key is `providers` is
a non-empty subset of the claim's accepted key set, so the claim says the
request succeeds; the schema is `.strict()` over only
{defaultModel, maxMessages, requestTimeout, autoOpenWebUI}, so the body is
rejected with 400. -/
theorem parseConfigPatch_rejects_providers :
    providersBody.extras = [("providers", JsonVal.other)] ∧
    (parseConfigPatch providersBody).isOk = false := by
  constructor
  · rfl
  · rfl

/-! ## Daemon lock file (`writeLockFile`, `src/daemon/utils/lock.ts`,
token-bearing revision) -/

/-- File-system side effects a lock write can perform. -/
inductive FsOp where
  | mkdir (path : String)
  | writeFile (path content : String) (mode : Option Nat)
  | chmod (path : String) (mode : Nat)
  | rename (src dst : String)
deriving DecidableEq, Repr

def CONFIG_DIR : String := ".ai-consultation-mcp"

def LOCK_FILE : String := ".ai-consultation-mcp/daemon.lock"

structure DaemonLock where
  pid : Nat
  port : Nat
  startedAt : String
  token : String
deriving DecidableEq, Repr

/-- One lowercase hex digit (`Buffer.toString('hex')` alphabet). -/
def hexDigit (n : Nat) : Char :=
  if n < 10 then Char.ofNat (48 + n) else Char.ofNat (87 + n)

/-- `Buffer.prototype.toString('hex')`: two digits per byte. -/
def bytesToHex (bs : List Nat) : List Char :=
  bs.foldr (fun b acc => hexDigit (b / 16) :: hexDigit (b % 16) :: acc) []

/-- `JSON.stringify(lock, null, 2)`. -/
def lockJson (l : DaemonLock) : String :=
  "\x7b\n  \"pid\": " ++ toString l.pid ++ ",\n  \"port\": " ++ toString l.port ++
    ",\n  \"startedAt\": \"" ++ l.startedAt ++ "\",\n  \"token\": \"" ++ l.token ++ "\"\n\x7d"

/-- `writeLockFile(port)`: build the lock record from the process pid, the
port, the current time and 32 random bytes rendered as hex, then
`fs.writeFileSync(LOCK_FILE, json, { mode: 0o600 })` (creating the config
directory first when missing) and `chmodSync(LOCK_FILE, 0o600)` off
Windows. The returned list is the sequence of file-system operations
performed. -/
def writeLockFile (platformWin dirExists : Bool) (pid port : Nat)
    (nowIso : String) (randBytes : List Nat) : List FsOp × DaemonLock :=
  let lock : DaemonLock := ⟨pid, port, nowIso, String.mk (bytesToHex randBytes)⟩
  ((if dirExists then [] else [FsOp.mkdir CONFIG_DIR]) ++
    [FsOp.writeFile LOCK_FILE (lockJson lock) (some 0o600)] ++
    (if platformWin then [] else [FsOp.chmod LOCK_FILE 0o600]),
    lock)

def isRenameOp : FsOp → Bool
  | .rename _ _ => true
  | _ => false

def HEX_CHARS : List Char := ("0123456789abcdef").data

theorem hexDigit_mem (n : Nat) (h : n < 16) : hexDigit n ∈ HEX_CHARS := by
  interval_cases n <;> decide

theorem bytesToHex_length (bs : List Nat) :
    (bytesToHex bs).length = 2 * bs.length := by
  induction bs with
  | nil => rfl
  | cons b rest ih =>
    simp only [bytesToHex, List.foldr_cons, List.length_cons] at ih ⊢
    omega

theorem bytesToHex_mem (bs : List Nat) (hb : ∀ b ∈ bs, b < 256) :
    ∀ c ∈ bytesToHex bs, c ∈ HEX_CHARS := by
  induction bs with
  | nil => intro c hc; cases hc
  | cons b rest ih =>
    intro c hc
    simp only [bytesToHex, List.foldr_cons, List.mem_cons] at hc
    have hblt : b < 256 := hb b (List.mem_cons_self b rest)
    rcases hc with hc | hc | hc
    · subst hc
      exact hexDigit_mem (b / 16) (by omega)
    · subst hc
      exact hexDigit_mem (b % 16) (by omega)
    · exact ih (fun x hx => hb x (List.mem_cons_of_mem b hx)) c hc

/-- Counterexample to C9 as stated: at a concrete daemon start (POSIX,
missing config dir, pid 1234, port 3456), the operations `writeLockFile`
performs contain no rename at all — the lock is written in place by a single
`writeFileSync`, not "written to a temporary file then renamed into
place". -/
theorem writeLockFile_no_rename :
    ((writeLockFile false false 1234 3456 ("2026-01-01T00:00:00.000Z")
        (List.replicate 32 0)).1.any isRenameOp) = false ∧
    (writeLockFile false false 1234 3456 ("2026-01-01T00:00:00.000Z")
        (List.replicate 32 0)).1 =
      [FsOp.mkdir CONFIG_DIR,
        FsOp.writeFile LOCK_FILE
          (lockJson (writeLockFile false false 1234 3456 ("2026-01-01T00:00:00.000Z")
            (List.replicate 32 0)).2) (some 0o600),
        FsOp.chmod LOCK_FILE 0o600] := by
  constructor
  · decide
  · rfl

/-- C9 (amended): on every successful daemon start the lock file is written
directly (a single `writeFileSync` with mode 0600, plus a `chmod 0600` off
Windows; no temporary file and no rename), and it contains the daemon's pid,
the chosen port, the current time, and the 32 fresh random bytes rendered as
exactly 64 lowercase hexadecimal characters. -/
theorem writeLockFile_direct_write_contents (platformWin dirExists : Bool)
    (pid port : Nat) (nowIso : String) (randBytes : List Nat)
    (h1 : randBytes.length = 32) (h2 : ∀ b ∈ randBytes, b < 256) :
    ((writeLockFile platformWin dirExists pid port nowIso randBytes).1.any isRenameOp
        = false) ∧
    (FsOp.writeFile LOCK_FILE
        (lockJson (writeLockFile platformWin dirExists pid port nowIso randBytes).2)
        (some 0o600)
      ∈ (writeLockFile platformWin dirExists pid port nowIso randBytes).1) ∧
    (writeLockFile platformWin dirExists pid port nowIso randBytes).2.pid = pid ∧
    (writeLockFile platformWin dirExists pid port nowIso randBytes).2.port = port ∧
    (writeLockFile platformWin dirExists pid port nowIso randBytes).2.startedAt = nowIso ∧
    (writeLockFile platformWin dirExists pid port nowIso randBytes).2.token.length = 64 ∧
    ∀ c ∈ (writeLockFile platformWin dirExists pid port nowIso randBytes).2.token.data,
      c ∈ HEX_CHARS := by
  refine ⟨?_, ?_, rfl, rfl, rfl, ?_, ?_⟩
  · simp only [writeLockFile, List.any_append, List.any_cons, List.any_nil]
    cases dirExists <;> cases platformWin <;> simp [isRenameOp]
  · simp only [writeLockFile]
    cases dirExists <;> cases platformWin <;> simp
  · show (String.mk (bytesToHex randBytes)).length = 64
    have : (String.mk (bytesToHex randBytes)).length = (bytesToHex randBytes).length := rfl
    rw [this, bytesToHex_length, h1]
  · show ∀ c ∈ (String.mk (bytesToHex randBytes)).data, c ∈ HEX_CHARS
    exact bytesToHex_mem randBytes h2

/-- Witness for C9 at a concrete input. -/
theorem writeLockFile_direct_write_contents_witness :
    (List.replicate 32 7).length = 32 ∧
    (writeLockFile true true 1 3456 ("t") (List.replicate 32 7)).2.token.length = 64 :=
  ⟨by decide,
    (writeLockFile_direct_write_contents true true 1 3456 ("t") (List.replicate 32 7)
      (by decide) (by decide)).2.2.2.2.2.1⟩

/-! ## Credential encryption plumbing (`src/config/encryption.ts` and
`ConfigManager.encryptApiKeys`/`decryptApiKeys`, `src/config/manager.ts`)

The AES-256-GCM core lives in `node:crypto`, outside this repository; it is
a parameter `d` (the decryption core) of the round-trip theorem. The
repository's own contribution — the `IV(16) || TAG(16) || CT` layout, the
base64 rendering, and the `isEncrypted` persistence guard — is modelled
exactly. Base64 decoding follows Node's lenient decoder: characters outside
the alphabet (including the `=` padding) are ignored, and a trailing group
of 2 or 3 sextets yields 1 or 2 bytes. -/

def B64_CHARS : List Char :=
  ("ABCDEFGHIJKLMNOPQRSTUVWXYZabcdefghijklmnopqrstuvwxyz0123456789+/").data

def b64Char (n : Nat) : Char := B64_CHARS.getD n ('A')

def b64IndexGo (c : Char) : List Char → Nat → Option Nat
  | [], _ => none
  | d :: rest, i => if d = c then some i else b64IndexGo c rest (i + 1)

/-- The sextet value of an alphabet character, `none` for everything else
(Node ignores non-alphabet input, `=` included). -/
def b64Index (c : Char) : Option Nat := b64IndexGo c B64_CHARS 0

/-- `Buffer.prototype.toString('base64')`. -/
def encB64 : List Nat → List Char
  | [] => []
  | [b1] => [b64Char (b1 / 4), b64Char (b1 % 4 * 16), '=', '=']
  | [b1, b2] => [b64Char (b1 / 4), b64Char (b1 % 4 * 16 + b2 / 16), b64Char (b2 % 16 * 4), '=']
  | b1 :: b2 :: b3 :: rest =>
    b64Char (b1 / 4) :: b64Char (b1 % 4 * 16 + b2 / 16) ::
      b64Char (b2 % 16 * 4 + b3 / 64) :: b64Char (b3 % 64) :: encB64 rest

/-- Reassemble bytes from a sextet stream (groups of 4, with Node's
handling of a trailing 2- or 3-sextet group; a lone trailing sextet is
dropped). -/
def sexToBytes : List Nat → List Nat
  | s1 :: s2 :: s3 :: s4 :: rest =>
    (s1 * 4 + s2 / 16) :: (s2 % 16 * 16 + s3 / 4) :: (s3 % 4 * 64 + s4) :: sexToBytes rest
  | [s1, s2] => [s1 * 4 + s2 / 16]
  | [s1, s2, s3] => [s1 * 4 + s2 / 16, s2 % 16 * 16 + s3 / 4]
  | _ => []

/-- `Buffer.from(value, 'base64')` (never throws). -/
def decB64 (l : List Char) : List Nat := sexToBytes (l.filterMap b64Index)

theorem b64Index_b64Char (n : Nat) (h : n < 64) : b64Index (b64Char n) = some n := by
  interval_cases n <;> decide

theorem b64Index_pad : b64Index ('=') = none := by decide

theorem decB64_encB64_fuel : ∀ (n : Nat) (bs : List Nat), bs.length ≤ n →
    (∀ b ∈ bs, b < 256) → decB64 (encB64 bs) = bs := by
  intro n
  induction n with
  | zero =>
    intro bs hlen _
    have : bs = [] := List.eq_nil_of_length_eq_zero (by omega)
    subst this
    rfl
  | succ n ih =>
    intro bs hlen hb
    match bs with
    | [] => rfl
    | [b1] =>
      have h1 : b1 < 256 := hb b1 (by simp)
      have e1 : b64Index (b64Char (b1 / 4)) = some (b1 / 4) :=
        b64Index_b64Char _ (by omega)
      have e2 : b64Index (b64Char (b1 % 4 * 16)) = some (b1 % 4 * 16) :=
        b64Index_b64Char _ (by omega)
      simp only [encB64, decB64, List.filterMap_cons, e1, e2, b64Index_pad,
        List.filterMap_nil, sexToBytes]
      have : b1 / 4 * 4 + b1 % 4 * 16 / 16 = b1 := by omega
      rw [this]
    | [b1, b2] =>
      have h1 : b1 < 256 := hb b1 (by simp)
      have h2 : b2 < 256 := hb b2 (by simp)
      have e1 : b64Index (b64Char (b1 / 4)) = some (b1 / 4) :=
        b64Index_b64Char _ (by omega)
      have e2 : b64Index (b64Char (b1 % 4 * 16 + b2 / 16)) = some (b1 % 4 * 16 + b2 / 16) :=
        b64Index_b64Char _ (by omega)
      have e3 : b64Index (b64Char (b2 % 16 * 4)) = some (b2 % 16 * 4) :=
        b64Index_b64Char _ (by omega)
      simp only [encB64, decB64, List.filterMap_cons, e1, e2, e3, b64Index_pad,
        List.filterMap_nil, sexToBytes, List.cons.injEq, and_true]
      omega
    | b1 :: b2 :: b3 :: rest =>
      have h1 : b1 < 256 := hb b1 (by simp)
      have h2 : b2 < 256 := hb b2 (by simp)
      have h3 : b3 < 256 := hb b3 (by simp)
      have e1 : b64Index (b64Char (b1 / 4)) = some (b1 / 4) :=
        b64Index_b64Char _ (by omega)
      have e2 : b64Index (b64Char (b1 % 4 * 16 + b2 / 16)) = some (b1 % 4 * 16 + b2 / 16) :=
        b64Index_b64Char _ (by omega)
      have e3 : b64Index (b64Char (b2 % 16 * 4 + b3 / 64)) = some (b2 % 16 * 4 + b3 / 64) :=
        b64Index_b64Char _ (by omega)
      have e4 : b64Index (b64Char (b3 % 64)) = some (b3 % 64) :=
        b64Index_b64Char _ (by omega)
      have hrest := ih rest (by simp at hlen; omega)
        (fun b hbm => hb b (by simp [hbm]))
      simp only [encB64, decB64, List.filterMap_cons, e1, e2, e3, e4, sexToBytes,
        List.cons.injEq]
      refine ⟨by omega, by omega, by omega, ?_⟩
      simpa [decB64] using hrest

theorem decB64_encB64 (bs : List Nat) (hb : ∀ b ∈ bs, b < 256) :
    decB64 (encB64 bs) = bs :=
  decB64_encB64_fuel bs.length bs (Nat.le_refl _) hb

/-- `encrypt`: `Buffer.concat([iv, authTag, ct]).toString('base64')`. -/
def encryptCombined (iv tag ct : List Nat) : String :=
  String.mk (encB64 (iv ++ tag ++ ct))

/-- `decrypt`: split the base64-decoded buffer into
`IV = [0,16)`, `TAG = [16,32)`, `CT = [32,…)` and hand the parts to the
GCM core `d` (which returns `none` on authentication failure). -/
def decryptCombined (d : List Nat → List Nat → List Nat → Option (List Nat))
    (s : String) : Option (List Nat) :=
  d ((decB64 s.data).take 16) (((decB64 s.data).drop 16).take 16)
    ((decB64 s.data).drop 32)

/-- `isEncrypted`: the value base64-decodes to more than
`IV_LENGTH + AUTH_TAG_LENGTH = 32` bytes (and is non-empty). -/
def isEncrypted (value : String) : Bool :=
  !value.data.isEmpty && decide (32 < (decB64 value.data).length)

/-- One provider's branch of `ConfigManager.encryptApiKeys`: keys that are
empty or already "look encrypted" are persisted unchanged; only the rest are
run through `encrypt`. -/
def persistedApiKey (encFn : String → String) (apiKey : String) : String :=
  if apiKey.data.isEmpty then apiKey
  else if isEncrypted apiKey then apiKey
  else encFn apiKey

/-- C8 (amended): for every apiKey that is non-empty and does not pass the
`isEncrypted` heuristic, the persisted value is the AES-256-GCM package
`base64(IV(16) ‖ TAG(16) ‖ CT)` and decrypting it recovers exactly the
supplied bytes — provided the external GCM core inverts on this package
(`d iv tag ct = some pt`); apiKeys that do pass the heuristic are persisted
unchanged. Layout recovery is proved for every 16-byte IV and TAG. -/
theorem encrypt_decrypt_roundtrip (pt iv tag ct : List Nat)
    (d : List Nat → List Nat → List Nat → Option (List Nat))
    (hiv : iv.length = 16) (htag : tag.length = 16)
    (hbytes : ∀ b ∈ iv ++ tag ++ ct, b < 256)
    (hd : d iv tag ct = some pt) :
    decryptCombined d (encryptCombined iv tag ct) = some pt := by
  unfold decryptCombined encryptCombined
  have hdata : (String.mk (encB64 (iv ++ tag ++ ct))).data = encB64 (iv ++ tag ++ ct) := rfl
  rw [hdata, decB64_encB64 _ hbytes]
  have htake : (iv ++ tag ++ ct).take 16 = iv := by
    rw [List.append_assoc]
    rw [show (16 : Nat) = iv.length from hiv.symm]
    exact List.take_left iv (tag ++ ct)
  have hdrop : (iv ++ tag ++ ct).drop 16 = tag ++ ct := by
    rw [List.append_assoc]
    rw [show (16 : Nat) = iv.length from hiv.symm]
    exact List.drop_left iv (tag ++ ct)
  have htake2 : (tag ++ ct).take 16 = tag := by
    rw [show (16 : Nat) = tag.length from htag.symm]
    exact List.take_left tag ct
  have hdrop32 : (iv ++ tag ++ ct).drop 32 = ct := by
    rw [show (32 : Nat) = (iv ++ tag).length from by simp [hiv, htag]]
    exact List.drop_left (iv ++ tag) ct
  rw [htake, hdrop, htake2, hdrop32]
  exact hd

/-- Witness for C8 at concrete bytes. -/
theorem encrypt_decrypt_roundtrip_witness :
    (List.replicate 16 0 : List Nat).length = 16 ∧
    decryptCombined (fun _ _ _ => some [1, 2, 3])
      (encryptCombined (List.replicate 16 0) (List.replicate 16 1) [9, 9, 9]) =
      some [1, 2, 3] :=
  ⟨by decide,
    encrypt_decrypt_roundtrip [1, 2, 3] (List.replicate 16 0) (List.replicate 16 1)
      [9, 9, 9] (fun _ _ _ => some [1, 2, 3]) (by decide) (by decide) (by decide) rfl⟩

/-- A 48-character plaintext that the persistence guard mistakes for
ciphertext. -/
def keyA48 : String := String.mk (List.replicate 48 ('A'))

/-- Counterexample to C8 as stated: the plaintext apiKey "AAAA…A" (48
characters) base64-decodes to 36 > 32 bytes, so `isEncrypted` reports true
and `encryptApiKeys` persists the key UNCHANGED — the value at rest is the
plaintext itself, not AES-256-GCM ciphertext (and `decrypt`, fed this value
on load, cannot return the supplied bytes: its GCM core authenticates
against a random IV/TAG split of the plaintext). The third conjunct shows
the persisted value ignores the encryption function entirely. -/
theorem encryptApiKeys_skips_base64_like_key :
    isEncrypted keyA48 = true ∧
    (decB64 keyA48.data).length = 36 ∧
    persistedApiKey (fun s => String.mk ('E' :: s.data)) keyA48 = keyA48 := by
  refine ⟨by decide, by decide, by decide⟩

/-! ## Daemon conversation store (`src/daemon/handlers/conversation.ts`,
`src/daemon/database.ts`, `src/daemon/handlers/provider.ts`)

The SQLite store is modelled as an association list keyed by conversation
id (ids are unique: `createConversation` draws a fresh uuid). Timestamps
are abstract ticks. -/

inductive Role where
  | user
  | assistant
  | system
deriving DecidableEq, Repr

structure DMsg where
  role : Role
  content : String
deriving DecidableEq, Repr

inductive DStatus where
  | active
  | archived
deriving DecidableEq, Repr

inductive DReason where
  | completed
  | timeout
  | manual
deriving DecidableEq, Repr

structure DConv where
  model : String
  systemPrompt : Option String
  status : DStatus
  endReason : Option DReason
  messages : List DMsg
  createdAt : Nat
  updatedAt : Nat
  endedAt : Option Nat
deriving DecidableEq, Repr

abbrev DStore := List (String × DConv)

/-- `SELECT … WHERE id = ?` on an association list. -/
def findConv {β : Type} (l : List (String × β)) (id : String) : Option β :=
  match l with
  | [] => none
  | (k, b) :: rest => if k = id then some b else findConv rest id

/-- `UPDATE … WHERE id = ?`: rewrite the value stored under `id`. -/
def setEntry {β : Type} (l : List (String × β)) (id : String) (v : β) :
    List (String × β) :=
  l.map (fun e => if e.1 = id then (id, v) else e)

theorem findConv_setEntry_self {β : Type} (l : List (String × β)) (id : String) (v : β) :
    (findConv l id).isSome = true → findConv (setEntry l id v) id = some v := by
  induction l with
  | nil => intro h; simp [findConv] at h
  | cons e rest ih =>
    intro h
    obtain ⟨k, b⟩ := e
    by_cases hk : k = id
    · subst hk
      simp only [setEntry, List.map_cons]
      simp [findConv]
    · simp only [setEntry, List.map_cons] at ih ⊢
      rw [if_neg hk]
      simp only [findConv, if_neg hk]
      simp only [findConv, if_neg hk] at h
      exact ih h

theorem findConv_setEntry_ne {β : Type} (l : List (String × β)) (id id2 : String) (v : β)
    (h : id2 ≠ id) : findConv (setEntry l id v) id2 = findConv l id2 := by
  induction l with
  | nil => rfl
  | cons e rest ih =>
    obtain ⟨k, b⟩ := e
    by_cases hk : k = id
    · simp only [setEntry, List.map_cons] at ih ⊢
      rw [if_pos hk]
      simp only [findConv]
      rw [if_neg (fun he => h he.symm), if_neg (by rw [hk]; exact fun he => h he.symm)]
      exact ih
    · simp only [setEntry, List.map_cons] at ih ⊢
      rw [if_neg hk]
      simp only [findConv]
      by_cases hk2 : k = id2
      · rw [if_pos hk2, if_pos hk2]
      · rw [if_neg hk2, if_neg hk2]
        exact ih

theorem findConv_mem {β : Type} (l : List (String × β)) (id : String) (v : β)
    (h : findConv l id = some v) : (id, v) ∈ l := by
  induction l with
  | nil => simp [findConv] at h
  | cons e rest ih =>
    obtain ⟨k, b⟩ := e
    simp only [findConv] at h
    by_cases hk : k = id
    · rw [if_pos hk] at h
      cases h
      subst hk
      exact List.mem_cons_self _ _
    · rw [if_neg hk] at h
      exact List.mem_cons_of_mem _ (ih h)

namespace Daemon

/-- `createConversation` (fresh uuid `id`): INSERT with status `active`. -/
def createConversation (s : DStore) (id model : String) (systemPrompt : Option String)
    (now : Nat) : DStore :=
  (id, ⟨model, systemPrompt, .active, none, [], now, now, none⟩) :: s

/-- `addMessage` from `src/daemon/handlers/conversation.ts`: INSERT the
message (the foreign key rejects an unknown conversation id, modelled as
`none` with the store unchanged) and touch `updated_at`. There is no limit
check and no status check. -/
def addMessage (s : DStore) (id : String) (role : Role) (content : String)
    (now : Nat) : DStore × Option DMsg :=
  match findConv s id with
  | none => (s, none)
  | some c =>
    (setEntry s id
      { c with
        messages := c.messages ++ [⟨role, content⟩],
        updatedAt := now },
      some ⟨role, content⟩)

/-- `archiveConversation` / `conversationQueries.archive`:
`UPDATE conversations SET status='archived', end_reason=@endReason,
ended_at=CURRENT_TIMESTAMP, updated_at=CURRENT_TIMESTAMP WHERE id=@id` —
note: no `AND status='active'` guard. Returns `changes`. -/
def archiveConversation (s : DStore) (id : String) (endReason : DReason)
    (now : Nat) : DStore × Nat :=
  match findConv s id with
  | none => (s, 0)
  | some c =>
    (setEntry s id
      { c with
        status := .archived,
        endReason := some endReason,
        endedAt := some now,
        updatedAt := now },
      1)

/-- `handleConsult` from `src/daemon/handlers/provider.ts`, restricted to
its store effects: snapshot the conversation, persist the user message,
then test the cap against the SNAPSHOT count (`conv.messages.length >=
config.maxMessages * 2`), archiving on failure; otherwise call the provider
(outcome is the parameter) and persist the reply. -/
def handleConsult (s : DStore) (id question : String) (context : Option String)
    (maxMessages : Nat) (provider : Except String String) (now : Nat) :
    DStore × Bool :=
  match findConv s id with
  | none => (s, false)
  | some conv =>
    let userContent := match context with
      | some ctx => question ++ "\n\nContext:\n" ++ ctx
      | none => question
    let s1 := (addMessage s id .user userContent now).1
    if maxMessages * 2 ≤ conv.messages.length then
      ((archiveConversation s1 id .timeout now).1, false)
    else
      match provider with
      | .ok reply => ((addMessage s1 id .assistant reply now).1, true)
      | .error _ => (s1, false)

end Daemon

/-- Six consults against one conversation with the default
`maxMessages = 5`; every provider call succeeds. -/
def c2Trace : DStore :=
  let s0 := Daemon.createConversation [] ("c1") ("deepseek-chat") none 0
  let s1 := (Daemon.handleConsult s0 ("c1") ("q1") none 5 (.ok ("a1")) 1).1
  let s2 := (Daemon.handleConsult s1 ("c1") ("q2") none 5 (.ok ("a2")) 2).1
  let s3 := (Daemon.handleConsult s2 ("c1") ("q3") none 5 (.ok ("a3")) 3).1
  let s4 := (Daemon.handleConsult s3 ("c1") ("q4") none 5 (.ok ("a4")) 4).1
  let s5 := (Daemon.handleConsult s4 ("c1") ("q5") none 5 (.ok ("a5")) 5).1
  (Daemon.handleConsult s5 ("c1") ("q6") none 5 (.ok ("a6")) 6).1

/-- Counterexample to C2: after five successful consults the conversation
holds 10 = 2·maxMessages messages; the sixth consult persists its user
message BEFORE the limit check (which tests the pre-insert snapshot), so the
committed, client-observable state holds 11 > 2·maxMessages messages (and
the conversation is archived). -/
theorem consult_trace_exceeds_cap :
    ((findConv c2Trace ("c1")).map fun c => c.messages.length) = some 11 ∧
    ((findConv c2Trace ("c1")).map fun c => c.status) = some .archived ∧
    2 * 5 < 11 := by
  refine ⟨by decide, by decide, by decide⟩

/-- A conversation already holding `2 × maxExchanges = 10` messages. -/
def full10 : DStore :=
  [(("c1"), ⟨("deepseek-chat"), none, .active, none,
    List.replicate 10 ⟨Role.user, ("m")⟩, 0, 0, none⟩)]

/-- Counterexample to C3: the daemon-store `addMessage` performs no LIMIT
check at all — called on a conversation already holding 10 = 2·maxExchanges
messages it succeeds and persists an 11th message instead of failing. -/
theorem daemon_addMessage_no_limit_check :
    ((findConv full10 ("c1")).map fun c => c.messages.length) = some 10 ∧
    (Daemon.addMessage full10 ("c1") .user ("one more") 1).2 =
      some ⟨Role.user, ("one more")⟩ ∧
    ((findConv (Daemon.addMessage full10 ("c1") .user ("one more") 1).1 ("c1")).map
      fun c => c.messages.length) = some 11 := by
  refine ⟨by decide, by decide, by decide⟩

/-- Counterexample to C4: archiving an active conversation with reason
`completed` at time 1, then archiving it AGAIN with reason `manual` at time
2: the second call still reports 1 changed row (the claim says false/zero
changes) and overwrites `endReason` to `manual` and `endedAt` to 2 (the
claim says both stay unchanged) — the UPDATE has no `status='active'`
guard. -/
theorem daemon_archive_not_idempotent :
    ((Daemon.archiveConversation
        (Daemon.archiveConversation full10 ("c1") .completed 1).1
        ("c1") .manual 2).2 = 1) ∧
    (((findConv (Daemon.archiveConversation
        (Daemon.archiveConversation full10 ("c1") .completed 1).1
        ("c1") .manual 2).1 ("c1")).map fun c => (c.endReason, c.endedAt)) =
      some (some .manual, some 2)) := by
  refine ⟨by decide, by decide⟩

/-- C4 (amended): `archive(id, reason)` updates unconditionally by id: when
the conversation exists — archived already or not — it sets status to
archived, endReason to the given reason, endedAt and updatedAt to now, and
reports 1 change (so re-archiving overwrites endReason/endedAt and still
reports a change); it reports 0 changes only when no conversation with that
id exists, and then the store is unchanged. Other conversations are never
touched. -/
theorem daemon_archive_characterization (s : DStore) (id : String)
    (endReason : DReason) (now : Nat) :
    (findConv s id = none → Daemon.archiveConversation s id endReason now = (s, 0)) ∧
    (∀ c, findConv s id = some c →
      (Daemon.archiveConversation s id endReason now).2 = 1 ∧
      findConv (Daemon.archiveConversation s id endReason now).1 id =
        some { c with
          status := .archived,
          endReason := some endReason,
          endedAt := some now,
          updatedAt := now } ∧
      ∀ id2, id2 ≠ id →
        findConv (Daemon.archiveConversation s id endReason now).1 id2 =
          findConv s id2) := by
  constructor
  · intro h
    unfold Daemon.archiveConversation
    rw [h]
  · intro c h
    unfold Daemon.archiveConversation
    rw [h]
    refine ⟨rfl, ?_, ?_⟩
    · exact findConv_setEntry_self s id _ (by rw [h]; rfl)
    · intro id2 h2
      exact findConv_setEntry_ne s id id2 _ h2

/-- Witness for C4 at a concrete store. -/
theorem daemon_archive_characterization_witness :
    findConv full10 ("c1") =
      some ⟨("deepseek-chat"), none, .active, none,
        List.replicate 10 ⟨Role.user, ("m")⟩, 0, 0, none⟩ ∧
    (Daemon.archiveConversation full10 ("c1") .timeout 7).2 = 1 :=
  ⟨by decide,
    ((daemon_archive_characterization full10 ("c1") .timeout 7).2
      ⟨("deepseek-chat"), none, .active, none,
        List.replicate 10 ⟨Role.user, ("m")⟩, 0, 0, none⟩ (by decide)).1⟩

/-! ## File-backed ConversationManager (`src/server/conversation.ts`) -/

inductive MReason where
  | completed
  | timeout
  | manual
  | sessionRestart
deriving DecidableEq, Repr

structure MConv where
  model : String
  messages : List DMsg
  systemPrompt : String
  createdAt : Nat
  lastActivityAt : Nat
deriving DecidableEq, Repr

structure MArchived where
  conv : MConv
  endedAt : Nat
  endReason : MReason
deriving DecidableEq, Repr

structure MState where
  convs : List (String × MConv)
  history : List MArchived
deriving DecidableEq, Repr

/-- `ConversationError`, distinguished by its message. -/
inductive MErr where
  | notFound (id : String)
  | limitReached
deriving DecidableEq, Repr

/-- `MAX_MESSAGES_LIMIT` from `src/config/defaults.ts`. -/
def MAX_MESSAGES_LIMIT : Nat := 5

/-- `CONVERSATION_TIMEOUT_MS` (30 minutes). -/
def CONVERSATION_TIMEOUT_MS : Nat := 30 * 60 * 1000

namespace Manager

/-- `ConversationManager.create` (fresh uuid `id`). -/
def create (s : MState) (id model systemPrompt : String) (now : Nat) : MState :=
  { s with convs := (id, ⟨model, [], systemPrompt, now, now⟩) :: s.convs }

/-- `ConversationManager.addMessage`: `get` throws NOT_FOUND for an unknown
id; the limit check `messages.length >= MAX_MESSAGES_LIMIT * 2` throws
LIMIT; otherwise push the message and bump `lastActivityAt`. On a throw the
state is unchanged: nothing was pushed. -/
def addMessage (s : MState) (id : String) (role : Role) (content : String)
    (now : Nat) : Except MErr Unit × MState :=
  match findConv s.convs id with
  | none => (.error (.notFound id), s)
  | some c =>
    if MAX_MESSAGES_LIMIT * 2 ≤ c.messages.length then (.error .limitReached, s)
    else
      (.ok (),
        { s with
          convs := setEntry s.convs id
            { c with
              messages := c.messages ++ [⟨role, content⟩],
              lastActivityAt := now } })

/-- `archiveConversation` (private): `history.unshift(...)` then keep the
first 100 entries. -/
def archiveToHistory (history : List MArchived) (c : MConv) (now : Nat)
    (reason : MReason) : List MArchived :=
  List.take 100 (⟨c, now, reason⟩ :: history)

/-- `ConversationManager.end`: archive as `completed`, delete, return the
message count. -/
def endConversation (s : MState) (id : String) (now : Nat) :
    Except MErr Nat × MState :=
  match findConv s.convs id with
  | none => (.error (.notFound id), s)
  | some c =>
    (.ok c.messages.length,
      ⟨s.convs.filter (fun e => !(e.1 == id)),
        archiveToHistory s.history c now .completed⟩)

/-- `cleanupStale`: archive every conversation older than the timeout as
`timeout` and delete it. -/
def cleanupStale (s : MState) (now : Nat) : MState :=
  ⟨s.convs.filter
      (fun e => !(decide (CONVERSATION_TIMEOUT_MS < now - e.2.lastActivityAt))),
    (s.convs.filter
        (fun e => decide (CONVERSATION_TIMEOUT_MS < now - e.2.lastActivityAt))).foldl
      (fun h e => archiveToHistory h e.2 now .timeout) s.history⟩

/-- The manager operations a client can commit. -/
inductive MOp where
  | create (id model systemPrompt : String) (now : Nat)
  | addMsg (id : String) (role : Role) (content : String) (now : Nat)
  | endConv (id : String) (now : Nat)
  | cleanup (now : Nat)

def applyOp (s : MState) : MOp → MState
  | .create id model sp now => create s id model sp now
  | .addMsg id role content now => (addMessage s id role content now).2
  | .endConv id now => (endConversation s id now).2
  | .cleanup now => cleanupStale s now

def run (ops : List MOp) : MState := ops.foldl applyOp ⟨[], []⟩

/-- The message cap, over the live map and the archived history alike. -/
def Inv (s : MState) : Prop :=
  (∀ e ∈ s.convs, e.2.messages.length ≤ MAX_MESSAGES_LIMIT * 2) ∧
  (∀ a ∈ s.history, a.conv.messages.length ≤ MAX_MESSAGES_LIMIT * 2)

end Manager

theorem setEntry_mem {β : Type} (l : List (String × β)) (id : String) (v : β) :
    ∀ e ∈ setEntry l id v, e = (id, v) ∨ e ∈ l := by
  intro e he
  simp only [setEntry, List.mem_map] at he
  obtain ⟨a, ha, hfa⟩ := he
  by_cases h : a.1 = id
  · rw [if_pos h] at hfa
    exact Or.inl hfa.symm
  · rw [if_neg h] at hfa
    exact Or.inr (hfa ▸ ha)

theorem archiveToHistory_mem (history : List MArchived) (c : MConv) (now : Nat)
    (reason : MReason) :
    ∀ a ∈ Manager.archiveToHistory history c now reason,
      a = ⟨c, now, reason⟩ ∨ a ∈ history := by
  intro a ha
  unfold Manager.archiveToHistory at ha
  have := List.take_subset 100 _ ha
  simpa using this

theorem foldl_archive_mem (now : Nat) :
    ∀ (entries : List (String × MConv)) (h0 : List MArchived) (a : MArchived),
      a ∈ entries.foldl (fun h e => Manager.archiveToHistory h e.2 now .timeout) h0 →
      (∃ e ∈ entries, a = ⟨e.2, now, .timeout⟩) ∨ a ∈ h0 := by
  intro entries
  induction entries with
  | nil => intro h0 a ha; exact Or.inr ha
  | cons e rest ih =>
    intro h0 a ha
    simp only [List.foldl_cons] at ha
    rcases ih _ a ha with ⟨e2, he2, hae⟩ | hin
    · exact Or.inl ⟨e2, List.mem_cons_of_mem e he2, hae⟩
    · rcases archiveToHistory_mem h0 e.2 now .timeout a hin with hnew | hold
      · exact Or.inl ⟨e, List.mem_cons_self e rest, hnew⟩
      · exact Or.inr hold

theorem manager_applyOp_preserves (s : MState) (op : Manager.MOp)
    (h : Manager.Inv s) : Manager.Inv (Manager.applyOp s op) := by
  obtain ⟨h1, h2⟩ := h
  cases op with
  | create id model sp now =>
    refine ⟨?_, h2⟩
    intro e he
    rcases List.mem_cons.mp he with he | he
    · subst he
      simp [MAX_MESSAGES_LIMIT]
    · exact h1 e he
  | addMsg id role content now =>
    cases hf : findConv s.convs id with
    | none =>
      simp only [Manager.applyOp, Manager.addMessage, hf]
      exact ⟨h1, h2⟩
    | some c =>
      simp only [Manager.applyOp, Manager.addMessage, hf]
      by_cases hlim : MAX_MESSAGES_LIMIT * 2 ≤ c.messages.length
      · rw [if_pos hlim]
        exact ⟨h1, h2⟩
      · rw [if_neg hlim]
        refine ⟨?_, h2⟩
        intro e he
        rcases setEntry_mem s.convs id _ e he with he2 | he2
        · subst he2
          simp only [List.length_append, List.length_cons, List.length_nil]
          omega
        · exact h1 e he2
  | endConv id now =>
    cases hf : findConv s.convs id with
    | none =>
      simp only [Manager.applyOp, Manager.endConversation, hf]
      exact ⟨h1, h2⟩
    | some c =>
      simp only [Manager.applyOp, Manager.endConversation, hf]
      constructor
      · intro e he
        exact h1 e (List.mem_of_mem_filter he)
      · intro a ha
        rcases archiveToHistory_mem s.history c now .completed a ha with hnew | hold
        · subst hnew
          exact h1 (id, c) (findConv_mem s.convs id c hf)
        · exact h2 a hold
  | cleanup now =>
    simp only [Manager.applyOp, Manager.cleanupStale]
    constructor
    · intro e he
      exact h1 e (List.mem_of_mem_filter he)
    · intro a ha
      rcases foldl_archive_mem now _ s.history a ha with ⟨e, he, hae⟩ | hold
      · subst hae
        exact h1 e (List.mem_of_mem_filter he)
      · exact h2 a hold

/-- C2 (amended): for the file-backed ConversationManager (the component
that enforces a cap at all), every reachable state — starting from the empty
manager and committing any sequence of create / addMessage / end / stale
cleanup operations — satisfies `messages.count ≤ 2 × MAX_MESSAGES_LIMIT`
for every live conversation and every archived history entry; the cap is
the constant `MAX_MESSAGES_LIMIT = 5`, not the configurable maxMessages. -/
theorem manager_reachable_message_cap (ops : List Manager.MOp) :
    Manager.Inv (Manager.run ops) := by
  have hgen : ∀ (l : List Manager.MOp) (s : MState), Manager.Inv s →
      Manager.Inv (l.foldl Manager.applyOp s) := by
    intro l
    induction l with
    | nil => intro s hs; exact hs
    | cons op rest ih =>
      intro s hs
      exact ih _ (manager_applyOp_preserves s op hs)
  refine hgen ops ⟨[], []⟩ ⟨?_, ?_⟩
  · intro e he; cases he
  · intro a ha; cases ha

/-- C3 (amended): for the file-backed ConversationManager,
`addMessage(id, role, content)` appends the message and bumps the activity
timestamp (the manager's updatedAt), leaving every other conversation
untouched; it fails with the LIMIT error whenever the conversation already
holds `≥ 2 × MAX_MESSAGES_LIMIT` persisted messages and with the NOT_FOUND
error whenever no conversation with that id exists, and in both failure
cases the state is unchanged — no message is persisted. (The daemon-store
`addMessage` enforces neither failure mode; see the counterexample.) -/
theorem manager_addMessage_contract (s : MState) (id : String) (role : Role)
    (content : String) (now : Nat) :
    (findConv s.convs id = none →
      Manager.addMessage s id role content now = (.error (.notFound id), s)) ∧
    (∀ c, findConv s.convs id = some c →
      MAX_MESSAGES_LIMIT * 2 ≤ c.messages.length →
      Manager.addMessage s id role content now = (.error .limitReached, s)) ∧
    (∀ c, findConv s.convs id = some c →
      c.messages.length < MAX_MESSAGES_LIMIT * 2 →
      (Manager.addMessage s id role content now).1 = .ok () ∧
      findConv (Manager.addMessage s id role content now).2.convs id =
        some { c with
          messages := c.messages ++ [⟨role, content⟩],
          lastActivityAt := now } ∧
      (∀ id2, id2 ≠ id →
        findConv (Manager.addMessage s id role content now).2.convs id2 =
          findConv s.convs id2)) := by
  refine ⟨?_, ?_, ?_⟩
  · intro h
    unfold Manager.addMessage
    rw [h]
  · intro c hc hlim
    simp only [Manager.addMessage, hc]
    rw [if_pos hlim]
  · intro c hc hlt
    simp only [Manager.addMessage, hc]
    rw [if_neg (by omega)]
    refine ⟨rfl, ?_, ?_⟩
    · exact findConv_setEntry_self s.convs id _ (by rw [hc]; rfl)
    · intro id2 h2
      exact findConv_setEntry_ne s.convs id id2 _ h2

/-- Witness for C2 at a concrete operation sequence. -/
theorem manager_reachable_message_cap_witness :
    Manager.Inv (Manager.run [Manager.MOp.create ("a") ("deepseek-chat") ("sp") 0,
      Manager.MOp.addMsg ("a") .user ("hi") 1]) :=
  manager_reachable_message_cap [Manager.MOp.create ("a") ("deepseek-chat") ("sp") 0,
    Manager.MOp.addMsg ("a") .user ("hi") 1]

/-- Witness for C3 at a concrete input: unknown id on the empty manager. -/
theorem manager_addMessage_contract_witness :
    findConv (⟨[], []⟩ : MState).convs ("x") = none ∧
    Manager.addMessage ⟨[], []⟩ ("x") .user ("hi") 0 =
      (.error (.notFound ("x")), (⟨[], []⟩ : MState)) :=
  ⟨rfl, (manager_addMessage_contract ⟨[], []⟩ ("x") .user ("hi") 0).1 rfl⟩

/-! ## Daemon config store and the config:updated broadcast
(`src/daemon/handlers/config.ts`, `app.put('/api/providers/:id')` and
`app.patch('/api/config')` in `src/daemon/server.ts`) -/

structure ProviderCfg where
  enabled : Bool
  apiKey : Option String
  baseUrl : Option String
deriving DecidableEq, Repr

structure ProvidersCfg where
  deepseek : ProviderCfg
  openai : ProviderCfg
deriving DecidableEq, Repr

structure Config where
  defaultModel : String
  maxMessages : Nat
  requestTimeout : Nat
  autoOpenWebUI : Bool
  providers : ProvidersCfg
deriving DecidableEq, Repr

/-- The `config` key-value table: stored overrides, absent keys fall back
to `DEFAULT_CONFIG`. The daemon's `updateConfig` stores provider records by
plain `JSON.stringify` — no encryption — and `getConfig` parses them back
verbatim, so the store round-trips the provider record including any
`apiKey`. -/
structure ConfigStore where
  defaultModel : Option String
  maxMessages : Option Nat
  requestTimeout : Option Nat
  autoOpenWebUI : Option Bool
  providers : Option ProvidersCfg
deriving DecidableEq, Repr

def DEFAULT_PROVIDERS : ProvidersCfg := ⟨⟨false, none, none⟩, ⟨false, none, none⟩⟩

/-- `DEFAULT_CONFIG` (`src/config/defaults.ts`; requestTimeout 180000 and
autoOpenWebUI false per the spec's default table). -/
def DEFAULT_CONFIG : Config :=
  ⟨("deepseek-reasoner"), 5, 180000, false, DEFAULT_PROVIDERS⟩

/-- `getConfig` from `src/daemon/handlers/config.ts`: stored values or
defaults, providers parsed verbatim. -/
def getConfig (s : ConfigStore) : Config :=
  ⟨s.defaultModel.getD DEFAULT_CONFIG.defaultModel,
    s.maxMessages.getD DEFAULT_CONFIG.maxMessages,
    s.requestTimeout.getD DEFAULT_CONFIG.requestTimeout,
    s.autoOpenWebUI.getD DEFAULT_CONFIG.autoOpenWebUI,
    s.providers.getD DEFAULT_CONFIG.providers⟩

inductive ProviderId where
  | deepseek
  | openai
deriving DecidableEq, Repr

/-- `String.prototype.trim`. -/
def jsTrim (s : String) : String := String.mk (trimWs s.data)

/-- `maskKey` from `src/api/shared/providers.ts`: eight bullets, plus the
last 4 characters when the key is longer than 4. -/
def maskKey (key : String) : String :=
  if key.length ≤ 4 then "••••••••"
  else "••••••••" ++ String.mk (key.data.drop (key.length - 4))

def setProviderKey (ps : ProvidersCfg) (id : ProviderId) (key : String) : ProvidersCfg :=
  match id with
  | .deepseek => { ps with deepseek := { ps.deepseek with apiKey := some key, enabled := true } }
  | .openai => { ps with openai := { ps.openai with apiKey := some key, enabled := true } }

/-- `PUT /api/providers/:id` from `src/daemon/server.ts`: reject a blank
key (400), otherwise store the trimmed key in the clear via `updateConfig`,
emit `config:updated` with the FULL `getConfig()` — the second component of
the result — and answer the REST caller with the masked key only. -/
def putProvider (s : ConfigStore) (id : ProviderId) (apiKey : String) :
    Option (ConfigStore × Config × String) :=
  if (jsTrim apiKey).data.isEmpty then none
  else
    let updated := setProviderKey (getConfig s).providers id (jsTrim apiKey)
    let s2 : ConfigStore := { s with providers := some updated }
    some (s2, getConfig s2, maskKey (jsTrim apiKey))

def initialStore : ConfigStore := ⟨none, none, none, none, none⟩

/-- C1 is violated by the code: after `PUT /api/providers/deepseek` with
apiKey "secret123", the `config:updated` payload the hub broadcasts —
`getConfig()` passed verbatim to `io.emit` — contains the plaintext apiKey
"secret123". Only the REST response field is masked (`maskKey`), and only
`GET /api/config` uses `toPublicConfig`; the broadcast does not. The same
`io.emit('config:updated', getConfig())` follows every `PATCH /api/config`
write. -/
theorem putProvider_broadcast_leaks_plaintext :
    ((putProvider initialStore .deepseek ("secret123")).map
        fun r => r.2.1.providers.deepseek.apiKey) = some (some ("secret123")) ∧
    ((putProvider initialStore .deepseek ("secret123")).map fun r => r.2.2) =
      some ("••••••••t123") := by
  refine ⟨by decide, ?_⟩
  rfl

end AiConsult
